import Mathlib

/-!
Verification of the muda core (`src/muda/base.py`): the `BaseTransformer`
generation protocol and the `Pipeline` composition protocol.

Shallow embedding conventions:
* A JAMS document is a value of type `Jam`; Python object identity is modelled
  by tagging each live document with an allocation id (`Obj.oid`) drawn from a
  counter threaded through every operation.  `copy.deepcopy` copies the value
  and allocates a fresh id, so two documents with distinct ids share no mutable
  structure.
* The mutable instance attribute `self._state` of a transformer is threaded
  explicitly as a `GenState` value.
* Exceptions are modelled with `Except`: `RuntimeError('No muda state ...')`
  becomes `MudaErr.noMudaState`, an exception escaping a user hook becomes
  `MudaErr.hookError`, and the two `ValueError`s of `Pipeline.__init__`
  become `PipeErr`.
* Transformer-authored hooks (`audio`, `metadata`, dispatch entries) mutate,
  per the transformer contract, the content fields handed to them (the
  sidecar's raw audio payload, the file metadata, one matched annotated
  item); they are modelled as fallible functions of the current generation
  state and that content.
-/

/-- The generation state `self._state`: an opaque dict (modelled as an
association list) produced by `get_state` for one generation pass. -/
abbrev GenState := List (String × Int)

/-- One history record pushed by `BaseTransformer._transform`:
`{'transformer': self.__serialize__, 'state': self._state}`.  The serialized
spec is opaque to the core and modelled as a `String`. -/
structure HistRecord where
  transformer : String
  state : GenState
deriving DecidableEq, Repr, Inhabited

/-- The muda sidecar `jam.sandbox.muda`: the append-only history plus the
transformer-private content fields (signal buffers etc.), collapsed into one
opaque payload `audioData`. -/
structure Muda where
  history : List HistRecord
  audioData : Int
deriving DecidableEq, Repr, Inhabited

/-- One annotated item of the document, carrying the query key
(`namespc`, matched by `jam.search(namespace=...)`) and an opaque payload. -/
structure Annot where
  namespc : String
  val : Int
deriving DecidableEq, Repr, Inhabited

/-- A JAMS document value: the sidecar (absent when `jam.sandbox` has no
`muda` attribute), the file metadata, and the annotated items. -/
structure Jam where
  sandbox_muda : Option Muda
  file_metadata : Int
  annotations : List Annot
deriving DecidableEq, Repr, Inhabited

/-- A live Python document object: a `Jam` value together with its object
identity `oid`.  `copy.deepcopy` yields a new `oid` over the same value. -/
structure Obj where
  oid : Nat
  jam : Jam
deriving DecidableEq, Repr, Inhabited

/-- `copy.deepcopy(jam)`: full structural copy under a fresh object id taken
from the allocation counter. -/
def deepcopy (ctr : Nat) (o : Obj) : Obj := { oid := ctr, jam := o.jam }

/-- Failures raised during a generation pass. -/
inductive MudaErr where
  /-- `RuntimeError('No muda state found in jams sandbox.')` -/
  | noMudaState
  /-- an exception raised by a transformer-authored hook, propagating uncaught -/
  | hookError (msg : String)
deriving DecidableEq, Repr, Inhabited

/-- A transformer instance: `n_samples`, the `get_state` builder, the two
optional hooks, the dispatch table (an ordered dict of query/mutator pairs),
and the serialized spec `self.__serialize__`. -/
structure Transformer where
  n_samples : Option Nat
  get_state : Jam → GenState
  audio : Option (GenState → Int → Except String Int)
  metadata : Option (GenState → Int → Except String Int)
  dispatch : List (String × (GenState → Annot → Except String Annot))
  serialize : String

/-- Run an optional hook (`if hasattr(self, ...)`): absent hooks are the
identity. -/
def runOptHook : Option (GenState → Int → Except String Int) → GenState → Int →
    Except String Int
  | none, _, x => .ok x
  | some f, s, x => f s x

/-- One dispatch entry applied to every annotated item matched by
`jam_w.search(namespace=query)`, in order; non-matching items are untouched. -/
def dispatchOne (s : GenState) (q : String)
    (f : GenState → Annot → Except String Annot) :
    List Annot → Except String (List Annot)
  | [] => .ok []
  | a :: rest =>
    if a.namespc = q then
      match f s a with
      | .error e => .error e
      | .ok a' =>
        match dispatchOne s q f rest with
        | .error e => .error e
        | .ok rest' => .ok (a' :: rest')
    else
      match dispatchOne s q f rest with
      | .error e => .error e
      | .ok rest' => .ok (a :: rest')

/-- Walk over the dispatch table (`for query, function in
six.iteritems(self.dispatch)`), each entry acting on the current items. -/
def dispatchAll (s : GenState) :
    List (String × (GenState → Annot → Except String Annot)) → List Annot →
    Except String (List Annot)
  | [], anns => .ok anns
  | (q, f) :: rest, anns =>
    match dispatchOne s q f anns with
    | .error e => .error e
    | .ok anns' => dispatchAll s rest anns'

/-- Steps 5-7 of a generation pass: the `audio` hook on the sidecar's content
payload, the `metadata` hook on the file metadata, then the dispatch walk. -/
def applyHooks (t : Transformer) (s : GenState) (m : Muda) (meta : Int)
    (anns : List Annot) : Except String (Muda × Int × List Annot) :=
  match runOptHook t.audio s m.audioData with
  | .error e => .error e
  | .ok ad' =>
    match runOptHook t.metadata s meta with
    | .error e => .error e
    | .ok meta' =>
      match dispatchAll s t.dispatch anns with
      | .error e => .error e
      | .ok anns' => .ok ({ m with audioData := ad' }, meta', anns')

/-- Embeds `BaseTransformer._transform(self, jam)`, threading the instance
attribute `self._state` and the allocation counter.  The sidecar precondition
is checked before anything else; then the input is deep-copied, `self._state`
is rebuilt by `_transform_state`, the history record is pushed onto the copy,
and the hooks run on the copy.  On success the copy is returned in a
length-one list. -/
def _transform (t : Transformer) (s : GenState) (ctr : Nat) (o : Obj) :
    Except MudaErr (List Obj) × GenState × Nat :=
  match o.jam.sandbox_muda with
  | none => (.error .noMudaState, s, ctr)
  | some muda =>
    let jam_w := deepcopy ctr o
    let s' := t.get_state jam_w.jam
    let muda' : Muda :=
      { muda with history := muda.history ++ [⟨t.serialize, s'⟩] }
    match applyHooks t s' muda' jam_w.jam.file_metadata jam_w.jam.annotations with
    | .error e => (.error (.hookError e), s', ctr + 1)
    | .ok (m2, meta2, anns2) =>
      (.ok [{ oid := jam_w.oid,
              jam := { sandbox_muda := some m2, file_metadata := meta2,
                       annotations := anns2 } }], s', ctr + 1)

/-- The identity-free content of one generation pass: what `_transform`
computes for the copy, with object identity and instance state stripped. -/
def genJam (t : Transformer) (o : Obj) : Except MudaErr Jam :=
  match o.jam.sandbox_muda with
  | none => .error .noMudaState
  | some muda =>
    let s' := t.get_state o.jam
    let muda' : Muda :=
      { muda with history := muda.history ++ [⟨t.serialize, s'⟩] }
    match applyHooks t s' muda' o.jam.file_metadata o.jam.annotations with
    | .error e => .error (.hookError e)
    | .ok (m2, meta2, anns2) =>
      .ok { sandbox_muda := some m2, file_metadata := meta2,
            annotations := anns2 }

/-- The loop guard of `BaseTransformer.transform`:
`self.n_samples is None or i < self.n_samples`. -/
def keepGoing (t : Transformer) (i : Nat) : Bool :=
  match t.n_samples with
  | none => true
  | some k => i < k

/-- Outcome of one pull on the lazy stream of `transform`: a yielded document,
stream exhaustion (`StopIteration`), or a propagated exception. -/
inductive PullRes where
  | item (w : Obj)
  | stop
  | err (e : MudaErr)
deriving DecidableEq, Repr, Inhabited

/-- Results of the next `m` pulls of a running `transform` generator whose
loop counter is `i`, threading `self._state` and the allocator.  A propagated
exception closes the generator: later pulls raise `StopIteration`. -/
def pullsAux (t : Transformer) (s : GenState) (ctr : Nat) (o : Obj)
    (i : Nat) : Nat → List PullRes × GenState × Nat
  | 0 => ([], s, ctr)
  | m + 1 =>
    if keepGoing t i then
      match _transform t s ctr o with
      | (.ok ws, s1, c1) =>
        let r := pullsAux t s1 c1 o (i + ws.length) m
        (ws.map PullRes.item ++ r.1, r.2.1, r.2.2)
      | (.error e, s1, c1) =>
        (PullRes.err e :: List.replicate m PullRes.stop, s1, c1)
    else (List.replicate (m + 1) PullRes.stop, s, ctr)

/-- Embeds `BaseTransformer.transform(self, jam)` observed through its first
`m` pulls.  The generator body runs on the first pull, so the reset
`self._state = dict()` happens then; every pull calls `_transform` on the
original input `o`, never on a previously yielded document. -/
def transformPulls (t : Transformer) (s : GenState) (ctr : Nat) (o : Obj) :
    Nat → List PullRes × GenState × Nat
  | 0 => ([], s, ctr)
  | m + 1 => pullsAux t [] ctr o 0 (m + 1)

/-- One generation pass observed functionally (result and allocator); by
`_transform_state_irrelevant` below this is the behaviour of `_transform`
for every incoming `self._state`. -/
def transformOne (t : Transformer) (ctr : Nat) (o : Obj) :
    Except MudaErr (List Obj) × Nat :=
  ((_transform t [] ctr o).1, (_transform t [] ctr o).2.2)

/-- The full yield sequence of `transform` for a transformer pulled `k`
times: `k` independent `_transform` passes on the same original input. -/
def transformN (t : Transformer) (ctr : Nat) (o : Obj) :
    Nat → Except MudaErr (List Obj) × Nat
  | 0 => (.ok [], ctr)
  | k + 1 =>
    match transformOne t ctr o with
    | (.error e, c1) => (.error e, c1)
    | (.ok ws, c1) =>
      match transformN t c1 o k with
      | (.error e, c2) => (.error e, c2)
      | (.ok rest, c2) => (.ok (ws ++ rest), c2)

/-- The inner loop of `Pipeline.__recursive_transform`: feed each variant
yielded by the head stage through the tail pipeline `recRest`, concatenating
the resulting streams in order (depth-first). -/
def recSeq (recRest : Nat → Obj → Except MudaErr (List Obj) × Nat) :
    List Obj → Nat → Except MudaErr (List Obj) × Nat
  | [], ctr => (.ok [], ctr)
  | v :: vs, ctr =>
    match recRest ctr v with
    | (.error e, c1) => (.error e, c1)
    | (.ok ds, c1) =>
      match recSeq recRest vs c1 with
      | (.error e, c2) => (.error e, c2)
      | (.ok rest, c2) => (.ok (ds ++ rest), c2)

/-- Embeds `Pipeline.__recursive_transform(self, jam, steps)` for finitely
sampled stages (`n_samples = some k`): with remaining steps empty the input
itself is yielded exactly once (no copy); otherwise every variant of the
head stage is expanded through the tail, depth-first. -/
def recTransform : List (String × Transformer) → Nat → Obj →
    Except MudaErr (List Obj) × Nat
  | [], ctr, o => (.ok [o], ctr)
  | (_, t) :: rest, ctr, o =>
    match transformN t ctr o (t.n_samples.getD 0) with
    | (.error e, c1) => (.error e, c1)
    | (.ok vs, c1) => recSeq (recTransform rest) vs c1

/-- Failures of `Pipeline.__init__`; both are `ValueError` in the source. -/
inductive PipeErr where
  /-- `names, transformers = zip(*steps)` on an empty step list: unpacking
  `zip()` raises `ValueError` -/
  | emptyUnpack
  /-- `len(named_steps) != len(steps)`: duplicate step names -/
  | dupNames
deriving DecidableEq, Repr, Inhabited

/-- A constructed pipeline: the (shallow-copied) step list. -/
structure Pipeline where
  steps : List (String × Transformer)

/-- Embeds `Pipeline.__init__`: `named_steps = dict(steps)` keeps one entry
per distinct name; unpacking `zip(*steps)` fails on an empty argument list;
then the name-collision check compares the dict size with the step count.
(The `isinstance` check cannot fail here: every step value has type
`Transformer` by construction.) -/
def Pipeline.init (steps : List (String × Transformer)) :
    Except PipeErr Pipeline :=
  if steps.isEmpty then .error .emptyUnpack
  else if (steps.map Prod.fst).dedup.length ≠ steps.length then
    .error .dupNames
  else .ok { steps := steps }

/-- Embeds `Pipeline.transform`: re-yield everything produced by
`__recursive_transform` over the full step list. -/
def Pipeline.transform (p : Pipeline) (ctr : Nat) (o : Obj) :
    Except MudaErr (List Obj) × Nat :=
  recTransform p.steps ctr o

/-- The history carried by a document (empty when the sidecar is absent). -/
def histOf (o : Obj) : List HistRecord :=
  match o.jam.sandbox_muda with
  | some m => m.history
  | none => []

/-- Mutation through the reference with object id `k` in a collection of live
documents: only the object actually aliased by that reference changes. -/
def mutateAt (k : Nat) (f : Jam → Jam) (l : List Obj) : List Obj :=
  l.map fun w => if w.oid = k then { oid := w.oid, jam := f w.jam } else w

/-- The working copy as it exists right after step 4 of a generation pass:
deep-copied, history record already appended, no hook run yet.  This is the
document that gets discarded when a hook raises. -/
def preHookObj (t : Transformer) (ctr : Nat) (o : Obj) : Obj :=
  match o.jam.sandbox_muda with
  | none => deepcopy ctr o
  | some muda =>
    let jam_w := deepcopy ctr o
    let s' := t.get_state jam_w.jam
    let muda' : Muda :=
      { muda with history := muda.history ++ [⟨t.serialize, s'⟩] }
    { oid := jam_w.oid, jam := { jam_w.jam with sandbox_muda := some muda' } }

/-! ### Sample instances (used by concrete witnesses) -/

/-- A transformer with no hooks: content-wise a no-op that still records
history (one sample per input). -/
def idT : Transformer :=
  { n_samples := some 1, get_state := fun _ => [], audio := none,
    metadata := none, dispatch := [], serialize := "idT" }

/-- A no-hook transformer yielding two samples per input. -/
def twoT : Transformer :=
  { idT with n_samples := some 2, serialize := "twoT" }

/-- A transformer whose `audio` hook increments the payload, three samples. -/
def threeT : Transformer :=
  { n_samples := some 3, get_state := fun _ => [("gain", 1)],
    audio := some (fun _ x => .ok (x + 1)), metadata := none, dispatch := [],
    serialize := "threeT" }

/-- A transformer whose `audio` hook always raises. -/
def failT : Transformer :=
  { idT with audio := some (fun _ _ => .error "boom"), serialize := "failT" }

/-- A document with an initialized (empty-history) sidecar. -/
def jam0 : Jam :=
  { sandbox_muda := some { history := [], audioData := 0 },
    file_metadata := 0, annotations := [] }

/-- A live document holding `jam0`, allocated with object id 0. -/
def obj0 : Obj := { oid := 0, jam := jam0 }

/-- A document whose sandbox carries no muda state. -/
def objNoMuda : Obj :=
  { oid := 0, jam := { sandbox_muda := none, file_metadata := 0,
                       annotations := [] } }

/-- `k` sibling copies of one computed content, under consecutive fresh
object ids starting at `ctr`. -/
def copies (J : Jam) (ctr k : Nat) : List Obj :=
  (List.range k).map (fun i => ⟨ctr + i, J⟩)


/-! ### Interleaved pulls on two streams sharing one transformer instance -/

/-- The resumable state of one running `transform` generator: its input
document, the loop counter `i`, and whether the generator has terminated
(exhausted or closed by a propagated exception). -/
structure StreamSt where
  inp : Obj
  i : Nat
  dead : Bool
deriving DecidableEq, Repr, Inhabited

/-- A pull outcome with object identity stripped: only content is compared
across schedules, since allocation order depends on the interleaving. -/
inductive CRes where
  | item (j : Jam)
  | stop
  | err (e : MudaErr)
deriving DecidableEq, Repr, Inhabited

/-- Forget the object identity of a pull outcome. -/
def PullRes.content : PullRes → CRes
  | .item w => .item w.jam
  | .stop => .stop
  | .err e => .err e

/-- One pull on a running generator, threading the shared instance state
`self._state` and the shared allocator.  On the generator's first pull its
body starts: `self._state = dict()`.  Then the loop guard is checked and one
`_transform` pass runs on the stream's own input. -/
def pullStream (t : Transformer) (s : GenState) (ctr : Nat) (st : StreamSt) :
    PullRes × GenState × Nat × StreamSt :=
  if st.dead then (.stop, s, ctr, st)
  else
    let s0 := if st.i = 0 then ([] : GenState) else s
    if keepGoing t st.i then
      match _transform t s0 ctr st.inp with
      | (.ok ws, s1, c1) =>
        match ws with
        | w :: _ => (.item w, s1, c1, ⟨st.inp, st.i + 1, false⟩)
        | [] => (.stop, s1, c1, ⟨st.inp, st.i, true⟩)
      | (.error e, s1, c1) => (.err e, s1, c1, ⟨st.inp, st.i, true⟩)
    else (.stop, s0, ctr, ⟨st.inp, st.i, true⟩)

/-- The same pull, run in isolation: content outcome and next stream state.
This is a function of the transformer and the stream state alone. -/
def isoPull (t : Transformer) (st : StreamSt) : CRes × StreamSt :=
  if st.dead then (.stop, st)
  else if keepGoing t st.i then
    match genJam t st.inp with
    | .ok J => (.item J, ⟨st.inp, st.i + 1, false⟩)
    | .error e => (.err e, ⟨st.inp, st.i, true⟩)
  else (.stop, ⟨st.inp, st.i, true⟩)

/-- The content outcomes of `m` pulls on one stream run in isolation. -/
def isoStream (t : Transformer) : StreamSt → Nat → List CRes
  | _, 0 => []
  | st, m + 1 => (isoPull t st).1 :: isoStream t (isoPull t st).2 m

/-- Drive two streams over one shared transformer instance according to a
schedule (`true` pulls the first stream, `false` the second), threading the
shared `self._state` and the shared allocator through every pull. -/
def runSched (t : Transformer) : GenState → Nat → StreamSt → StreamSt →
    List Bool → List (Bool × PullRes) × GenState × Nat × StreamSt × StreamSt
  | s, ctr, a, b, [] => ([], s, ctr, a, b)
  | s, ctr, a, b, side :: sc =>
    if side then
      let p := pullStream t s ctr a
      let rest := runSched t p.2.1 p.2.2.1 p.2.2.2 b sc
      ((true, p.1) :: rest.1, rest.2)
    else
      let p := pullStream t s ctr b
      let rest := runSched t p.2.1 p.2.2.1 a p.2.2.2 sc
      ((false, p.1) :: rest.1, rest.2)

/-- The pull outcomes recorded for one side of an interleaved run. -/
def sideResults (side : Bool) : List (Bool × PullRes) → List CRes
  | [] => []
  | (sd, r) :: rest =>
    if sd = side then r.content :: sideResults side rest
    else sideResults side rest

/-- How many pulls a schedule directs at one side. -/
def countPulls (side : Bool) : List Bool → Nat
  | [] => 0
  | x :: sc =>
    if x = side then countPulls side sc + 1 else countPulls side sc

/-! ### Concrete documents used by the witnesses -/

/-- A document content with the given history, over trivial payloads. -/
def histJam (recs : List HistRecord) : Jam :=
  { sandbox_muda := some { history := recs, audioData := 0 },
    file_metadata := 0, annotations := [] }

/-- Content after one `twoT` pass. -/
def jamT : Jam := histJam [⟨"twoT", []⟩]

/-- Content after two chained `twoT` passes. -/
def jamTT : Jam := histJam [⟨"twoT", []⟩, ⟨"twoT", []⟩]

/-- Content after an `idT` pass followed by a `twoT` pass. -/
def jamIT : Jam := histJam [⟨"idT", []⟩, ⟨"twoT", []⟩]

/-- Content after one `idT` pass. -/
def jamI : Jam := histJam [⟨"idT", []⟩]

/-- The two documents yielded by `twoT` on `obj0` from allocator 1. -/
def objsT1 : List Obj := [⟨1, jamT⟩, ⟨2, jamT⟩]

/-- The four documents of the two-by-two pipeline on `obj0`. -/
def objsTT : List Obj := [⟨3, jamTT⟩, ⟨4, jamTT⟩, ⟨5, jamTT⟩, ⟨6, jamTT⟩]

/-- The two documents of the `idT`-then-`twoT` pipeline on `obj0`. -/
def objsIT : List Obj := [⟨2, jamIT⟩, ⟨3, jamIT⟩]

/-- The single document yielded by the one-step `idT` pipeline on `obj0`. -/
def objsI1 : List Obj := [⟨1, jamI⟩]

/-! ### Characterization of a single generation pass -/

/-- `_transform` in terms of the identity-free pass `genJam`: the instance
state is overwritten before use, the copy gets the next object id, and the
result carries no other dependence on `s` or `ctr`. -/
theorem transform_eq_genJam (t : Transformer) (s : GenState) (ctr : Nat)
    (o : Obj) :
    _transform t s ctr o =
      match genJam t o with
      | .error .noMudaState => (.error MudaErr.noMudaState, s, ctr)
      | .error (.hookError e) =>
          (.error (MudaErr.hookError e), t.get_state o.jam, ctr + 1)
      | .ok J => (.ok [⟨ctr, J⟩], t.get_state o.jam, ctr + 1) := by
  unfold _transform genJam deepcopy
  cases hsm : o.jam.sandbox_muda with
  | none => rfl
  | some muda =>
    simp only []
    cases happ : applyHooks t (t.get_state o.jam)
        { muda with history := muda.history ++ [⟨t.serialize, t.get_state o.jam⟩] }
        o.jam.file_metadata o.jam.annotations with
    | error e => simp [happ]
    | ok trip =>
      obtain ⟨m2, meta2, anns2⟩ := trip
      simp [happ]

/-- The observable behaviour of `_transform` does not depend on the incoming
instance state `self._state`. -/
theorem transform_state_irrelevant (t : Transformer) (s s' : GenState)
    (ctr : Nat) (o : Obj) :
    (_transform t s ctr o).1 = (_transform t s' ctr o).1 ∧
    (_transform t s ctr o).2.2 = (_transform t s' ctr o).2.2 := by
  rw [transform_eq_genJam t s, transform_eq_genJam t s']
  cases h : genJam t o with
  | error e => cases e <;> simp
  | ok J => simp

/-- A successful pass yields exactly one document: the copy, as computed by
`genJam`, allocated at the current counter. -/
theorem transform_ok_iff (t : Transformer) (s : GenState) (ctr : Nat) (o : Obj)
    (ws : List Obj) (s2 : GenState) (c2 : Nat) :
    _transform t s ctr o = (.ok ws, s2, c2) ↔
      ∃ J, genJam t o = .ok J ∧ ws = [⟨ctr, J⟩] ∧
        s2 = t.get_state o.jam ∧ c2 = ctr + 1 := by
  rw [transform_eq_genJam]
  cases h : genJam t o with
  | error e => cases e <;> simp
  | ok J => simp [eq_comm, and_assoc]

/-- Hooks only touch the content payload of the sidecar, never its history. -/
theorem applyHooks_hist (t : Transformer) (s : GenState) (m : Muda)
    (meta : Int) (anns : List Annot) (m2 : Muda) (meta2 : Int)
    (anns2 : List Annot)
    (h : applyHooks t s m meta anns = .ok (m2, meta2, anns2)) :
    m2.history = m.history := by
  unfold applyHooks at h
  cases h1 : runOptHook t.audio s m.audioData <;> rw [h1] at h
  · simp at h
  cases h2 : runOptHook t.metadata s meta <;> rw [h2] at h
  · simp at h
  cases h3 : dispatchAll s t.dispatch anns <;> rw [h3] at h
  · simp at h
  · simp at h
    obtain ⟨hm, -, -⟩ := h
    rw [← hm]

/-- Shape of a successful identity-free pass: the input had a sidecar, the
output has one, and the output history is the input history with exactly the
new record appended. -/
theorem genJam_ok_hist (t : Transformer) (o : Obj) (J : Jam)
    (h : genJam t o = .ok J) :
    ∃ muda m2, o.jam.sandbox_muda = some muda ∧ J.sandbox_muda = some m2 ∧
      m2.history = muda.history ++ [⟨t.serialize, t.get_state o.jam⟩] := by
  unfold genJam at h
  cases hsm : o.jam.sandbox_muda with
  | none => rw [hsm] at h; simp at h
  | some muda =>
    rw [hsm] at h
    simp only [] at h
    cases happ : applyHooks t (t.get_state o.jam)
        { muda with history := muda.history ++ [⟨t.serialize, t.get_state o.jam⟩] }
        o.jam.file_metadata o.jam.annotations with
    | error e => rw [happ] at h; simp at h
    | ok trip =>
      obtain ⟨m2, meta2, anns2⟩ := trip
      rw [happ] at h
      simp at h
      refine ⟨muda, m2, rfl, ?_, ?_⟩
      · rw [← h]
      · exact applyHooks_hist t _ _ _ _ _ _ _ happ

/-! ### The multi-variant generator -/

/-- Success shape of one functional pass. -/
theorem transformOne_ok_iff (t : Transformer) (ctr : Nat) (o : Obj)
    (ws : List Obj) (c : Nat) :
    transformOne t ctr o = (.ok ws, c) ↔
      ∃ J, genJam t o = .ok J ∧ ws = [⟨ctr, J⟩] ∧ c = ctr + 1 := by
  unfold transformOne
  rw [transform_eq_genJam]
  cases h : genJam t o with
  | error e => cases e <;> simp
  | ok J => simp [eq_comm, and_assoc]

/-- A missing sidecar is reported by the identity-free pass, and conversely. -/
theorem genJam_noMuda_iff (t : Transformer) (o : Obj) :
    genJam t o = .error .noMudaState ↔ o.jam.sandbox_muda = none := by
  unfold genJam
  cases hsm : o.jam.sandbox_muda with
  | none => simp
  | some muda =>
    simp only []
    cases happ : applyHooks t (t.get_state o.jam)
        { muda with history := muda.history ++ [⟨t.serialize, t.get_state o.jam⟩] }
        o.jam.file_metadata o.jam.annotations with
    | error e => simp [happ]
    | ok trip => obtain ⟨m2, meta2, anns2⟩ := trip; simp [happ]

theorem copies_succ (J : Jam) (ctr k : Nat) :
    copies J ctr (k + 1) = ⟨ctr, J⟩ :: copies J (ctr + 1) k := by
  unfold copies
  rw [List.range_succ_eq_map, List.map_cons, List.map_map]
  refine congrArg₂ List.cons (by simp) (List.map_congr_left ?_)
  intro i _
  simp only [Function.comp_apply, Obj.mk.injEq, and_true]
  omega

theorem copies_len (J : Jam) (ctr k : Nat) : (copies J ctr k).length = k := by
  simp [copies]

theorem copies_getElem (J : Jam) (ctr k i : Nat) (h : i < k) :
    (copies J ctr k)[i]? = some ⟨ctr + i, J⟩ := by
  simp [copies, List.getElem?_map, List.getElem?_range h]

theorem copies_mem (J : Jam) (ctr k : Nat) (w : Obj) (h : w ∈ copies J ctr k) :
    ∃ i, i < k ∧ w = ⟨ctr + i, J⟩ := by
  simp only [copies, List.mem_map, List.mem_range] at h
  obtain ⟨i, hi, he⟩ := h
  exact ⟨i, hi, he.symm⟩

/-- A full characterization of a successful finite yield sequence: `k` fresh
copies of the same computed content, with consecutive object ids. -/
theorem transformN_ok_char (t : Transformer) :
    ∀ (k ctr : Nat) (o : Obj) (l : List Obj) (c : Nat),
    transformN t ctr o k = (.ok l, c) →
    c = ctr + k ∧
      ((k = 0 ∧ l = []) ∨
        ∃ J, genJam t o = .ok J ∧ l = copies J ctr k) := by
  intro k
  induction k with
  | zero =>
    intro ctr o l c h
    unfold transformN at h
    obtain ⟨h1, h2⟩ := Prod.mk.injEq .. ▸ h
    simp_all
  | succ k ih =>
    intro ctr o l c h
    unfold transformN at h
    cases h1 : transformOne t ctr o with
    | mk r1 c1 =>
      rw [h1] at h
      cases r1 with
      | error e => simp at h
      | ok ws =>
        simp only [] at h
        cases h2 : transformN t c1 o k with
        | mk r2 c2 =>
          rw [h2] at h
          cases r2 with
          | error e => simp at h
          | ok rest =>
            simp only [Prod.mk.injEq, Except.ok.injEq] at h
            obtain ⟨hl, hc⟩ := h
            obtain ⟨J, hJ, hws, hc1⟩ := (transformOne_ok_iff t ctr o ws c1).1 h1
            subst hc1
            obtain ⟨hc2, hrest⟩ := ih (ctr + 1) o rest c2 h2
            subst hc hc2
            refine ⟨by omega, Or.inr ⟨J, hJ, ?_⟩⟩
            subst hws
            rw [copies_succ]
            rcases hrest with ⟨hk0, hre⟩ | ⟨J', hJ', hre⟩
            · subst hk0; subst hre; subst hl; rfl
            · rw [hJ'] at hJ
              injection hJ with hJJ
              subst hJJ; subst hre; subst hl
              rfl

/-- On success the finite yield sequence has exactly `k` documents and
advances the allocator by `k`. -/
theorem transformN_len (t : Transformer) (k ctr : Nat) (o : Obj)
    (l : List Obj) (c : Nat) (h : transformN t ctr o k = (.ok l, c)) :
    l.length = k ∧ c = ctr + k := by
  obtain ⟨hc, hch⟩ := transformN_ok_char t k ctr o l c h
  refine ⟨?_, hc⟩
  rcases hch with ⟨hk, hl⟩ | ⟨J, _, hl⟩
  · subst hl; simp [hk]
  · subst hl; simp [copies_len]

/-! ### The lazy stream of `transform` -/

/-- With a missing sidecar, the finite yield sequence fails on its first pass
without touching the allocator. -/
theorem transformN_noMuda (t : Transformer) (k ctr : Nat) (o : Obj)
    (hsm : o.jam.sandbox_muda = none) (hk : 0 < k) :
    transformN t ctr o k = (.error .noMudaState, ctr) := by
  cases k with
  | zero => omega
  | succ k =>
    unfold transformN transformOne
    rw [transform_eq_genJam, (genJam_noMuda_iff t o).2 hsm]

/-- The pull stream agrees with the finite yield sequence: when the loop
guard admits `d` more passes and they all succeed, the next `m ≥ d` pulls
yield exactly those documents followed by stream exhaustion. -/
theorem pullsAux_ok (t : Transformer) (k : Nat) (hk : t.n_samples = some k) :
    ∀ (d i : Nat), i + d = k →
    ∀ (s : GenState) (ctr : Nat) (o : Obj) (l : List Obj) (c m : Nat),
      d ≤ m → transformN t ctr o d = (.ok l, c) →
      ∃ sF, pullsAux t s ctr o i m =
        (l.map PullRes.item ++ List.replicate (m - d) PullRes.stop, sF, c) := by
  intro d
  induction d with
  | zero =>
    intro i hik s ctr o l c m _ h
    unfold transformN at h
    obtain ⟨h1, h2⟩ := Prod.mk.injEq .. ▸ h
    have hl : l = [] := by simp_all
    have hc : c = ctr := by simp_all
    subst hl hc
    have hguard : keepGoing t i = false := by
      simp [keepGoing, hk]; omega
    refine ⟨s, ?_⟩
    cases m with
    | zero => simp [pullsAux]
    | succ m => simp [pullsAux, hguard]
  | succ d ih =>
    intro i hik s ctr o l c m hm h
    unfold transformN at h
    cases h1 : transformOne t ctr o with
    | mk r1 c1 =>
      rw [h1] at h
      cases r1 with
      | error e => simp at h
      | ok ws =>
        simp only [] at h
        cases h2 : transformN t c1 o d with
        | mk r2 c2 =>
          rw [h2] at h
          cases r2 with
          | error e => simp at h
          | ok rest =>
            simp only [Prod.mk.injEq, Except.ok.injEq] at h
            obtain ⟨hl, hc⟩ := h
            obtain ⟨J, hJ, hws, hc1⟩ := (transformOne_ok_iff t ctr o ws c1).1 h1
            subst hc1 hws hc hl
            cases m with
            | zero => omega
            | succ m =>
              have hguard : keepGoing t i = true := by
                simp [keepGoing, hk]; omega
              obtain ⟨sF, hrec⟩ :=
                ih (i + 1) (by omega) (t.get_state o.jam) (ctr + 1) o rest c2
                  m (by omega) h2
              refine ⟨sF, ?_⟩
              have hstep : _transform t s ctr o =
                  (.ok [⟨ctr, J⟩], t.get_state o.jam, ctr + 1) := by
                rw [transform_eq_genJam, hJ]
              simp only [pullsAux, hguard, if_pos, hstep, List.length_cons,
                List.length_nil, Nat.zero_add, hrec]
              simp [Nat.succ_sub_succ]

/-- Pull results are prefix-stable: the outcome of the pulls already taken is
unchanged by however many further pulls (including failing ones) follow. -/
theorem pullsAux_take (t : Transformer) :
    ∀ (m : Nat) (s : GenState) (ctr : Nat) (o : Obj) (i j : Nat),
    (pullsAux t s ctr o i m).1 = ((pullsAux t s ctr o i (m + j)).1).take m := by
  intro m
  induction m with
  | zero => intro s ctr o i j; simp [pullsAux]
  | succ m ih =>
    intro s ctr o i j
    have hadd : m + 1 + j = (m + j) + 1 := by omega
    rw [hadd]
    cases hg : keepGoing t i with
    | false =>
      simp only [pullsAux, hg, Bool.false_eq_true, if_false]
      rw [List.take_replicate]
      congr 1
      omega
    | true =>
      cases hr : _transform t s ctr o with
      | mk r1 sc =>
        obtain ⟨s1, c1⟩ := sc
        cases r1 with
        | ok ws =>
          obtain ⟨J, hJ, hws, -⟩ := (transform_ok_iff t s ctr o ws s1 c1).1 hr
          subst hws
          simp only [pullsAux, hg, if_true, hr]
          simp only [List.map_cons, List.map_nil, List.singleton_append,
            List.take_succ_cons, List.length_cons, List.length_nil]
          rw [← ih]
        | error e =>
          simp only [pullsAux, hg, if_true, hr]
          simp only [List.take_succ_cons]
          rw [List.take_replicate]
          congr 2
          omega

/-- A failing pass surfaces at the pull that computes it: the pull raises,
yields nothing, and the generator is closed (all later pulls stop). -/
theorem pullsAux_err (t : Transformer) (s : GenState) (ctr : Nat) (o : Obj)
    (i m : Nat) (e : MudaErr) (s2 : GenState) (c2 : Nat)
    (hg : keepGoing t i = true)
    (h : _transform t s ctr o = (.error e, s2, c2)) :
    pullsAux t s ctr o i (m + 1) =
      (PullRes.err e :: List.replicate m PullRes.stop, s2, c2) := by
  simp only [pullsAux, hg, if_true, h]

/-! ### Pipeline composition -/

/-- An empty tail pipeline is the identity stage: every fed document is
yielded back itself, once, with no allocation. -/
theorem recSeq_id : ∀ (vs : List Obj) (c : Nat),
    recSeq (recTransform []) vs c = (.ok vs, c) := by
  intro vs
  induction vs with
  | nil => intro c; rfl
  | cons v vs ih =>
    intro c
    have h0 : recTransform [] c v = (.ok [v], c) := rfl
    simp only [recSeq, h0, ih, List.singleton_append]

/-- A one-step pipeline is exactly the head transformer's yield sequence. -/
theorem recTransform_single (name : String) (t : Transformer) (ctr : Nat)
    (o : Obj) :
    recTransform [(name, t)] ctr o =
      transformN t ctr o (t.n_samples.getD 0) := by
  unfold recTransform
  cases h : transformN t ctr o (t.n_samples.getD 0) with
  | mk r c =>
    cases r with
    | error e => rfl
    | ok vs => simp only [recSeq_id]

/-- Every document in a depth-first expansion descends from one of the fed
variants through the tail pipeline. -/
theorem recSeq_mem (R : Nat → Obj → Except MudaErr (List Obj) × Nat) :
    ∀ (vs : List Obj) (ctr : Nat) (l : List Obj) (c : Nat),
    recSeq R vs ctr = (.ok l, c) →
    ∀ w ∈ l, ∃ v ∈ vs, ∃ c1 lv c2, R c1 v = (.ok lv, c2) ∧ w ∈ lv := by
  intro vs
  induction vs with
  | nil =>
    intro ctr l c h w hw
    unfold recSeq at h
    obtain ⟨h1, -⟩ := Prod.mk.injEq .. ▸ h
    simp_all
  | cons v vs ih =>
    intro ctr l c h w hw
    unfold recSeq at h
    cases h1 : R ctr v with
    | mk r1 c1 =>
      rw [h1] at h
      cases r1 with
      | error e => simp at h
      | ok ds =>
        simp only [] at h
        cases h2 : recSeq R vs c1 with
        | mk r2 c2 =>
          rw [h2] at h
          cases r2 with
          | error e => simp at h
          | ok rest =>
            simp only [Prod.mk.injEq, Except.ok.injEq] at h
            obtain ⟨hl, hc⟩ := h
            subst hl
            rcases List.mem_append.1 hw with hwd | hwr
            · exact ⟨v, List.mem_cons_self .., ctr, ds, c1, h1, hwd⟩
            · obtain ⟨v', hv', rest⟩ := ih c1 rest c2 h2 w hwr
              exact ⟨v', List.mem_cons_of_mem _ hv', rest⟩

/-- When the tail pipeline yields a fixed number `b` of documents per fed
variant, the depth-first expansion yields `b` per variant in total. -/
theorem recSeq_len (R : Nat → Obj → Except MudaErr (List Obj) × Nat) (b : Nat)
    (hR : ∀ (c : Nat) (v : Obj) (lv : List Obj) (c2 : Nat),
      R c v = (.ok lv, c2) → lv.length = b) :
    ∀ (vs : List Obj) (ctr : Nat) (l : List Obj) (c : Nat),
    recSeq R vs ctr = (.ok l, c) → l.length = vs.length * b := by
  intro vs
  induction vs with
  | nil =>
    intro ctr l c h
    unfold recSeq at h
    obtain ⟨h1, -⟩ := Prod.mk.injEq .. ▸ h
    simp_all
  | cons v vs ih =>
    intro ctr l c h
    unfold recSeq at h
    cases h1 : R ctr v with
    | mk r1 c1 =>
      rw [h1] at h
      cases r1 with
      | error e => simp at h
      | ok ds =>
        simp only [] at h
        cases h2 : recSeq R vs c1 with
        | mk r2 c2 =>
          rw [h2] at h
          cases r2 with
          | error e => simp at h
          | ok rest =>
            simp only [Prod.mk.injEq, Except.ok.injEq] at h
            obtain ⟨hl, -⟩ := h
            subst hl
            rw [List.length_append, hR ctr v ds c1 h1, ih c1 rest c2 h2]
            simp only [List.length_cons]
            ring

/-- Allocator freshness through a depth-first expansion: every yielded
document either carries a fresh object id from this expansion or is one of
the fed variants, passed through unchanged. -/
theorem recSeq_interval (R : Nat → Obj → Except MudaErr (List Obj) × Nat)
    (hR : ∀ (ctr : Nat) (v : Obj) (lv : List Obj) (c2 : Nat),
      R ctr v = (.ok lv, c2) →
      ctr ≤ c2 ∧ ∀ w ∈ lv, (ctr ≤ w.oid ∧ w.oid < c2) ∨ w = v) :
    ∀ (vs : List Obj) (ctr : Nat) (l : List Obj) (c : Nat),
    recSeq R vs ctr = (.ok l, c) →
    ctr ≤ c ∧ ∀ w ∈ l,
      (ctr ≤ w.oid ∧ w.oid < c) ∨ ∃ v, v ∈ vs ∧ w = v := by
  intro vs
  induction vs with
  | nil =>
    intro ctr l c h
    unfold recSeq at h
    obtain ⟨h1, h2⟩ := Prod.mk.injEq .. ▸ h
    have hl : l = [] := by simp_all
    have hc : c = ctr := by simp_all
    subst hl hc
    simp
  | cons v vs ih =>
    intro ctr l c h
    unfold recSeq at h
    cases h1 : R ctr v with
    | mk r1 c1 =>
      rw [h1] at h
      cases r1 with
      | error e => simp at h
      | ok ds =>
        simp only [] at h
        cases h2 : recSeq R vs c1 with
        | mk r2 c2 =>
          rw [h2] at h
          cases r2 with
          | error e => simp at h
          | ok rest =>
            simp only [Prod.mk.injEq, Except.ok.injEq] at h
            obtain ⟨hl, hc⟩ := h
            subst hl hc
            obtain ⟨hc1, hds⟩ := hR ctr v ds c1 h1
            obtain ⟨hc2, hrest⟩ := ih c1 rest _ h2
            refine ⟨by omega, ?_⟩
            intro w hw
            rcases List.mem_append.1 hw with hwd | hwr
            · rcases hds w hwd with ⟨hlo, hhi⟩ | hv
              · exact Or.inl ⟨hlo, by omega⟩
              · exact Or.inr ⟨v, List.mem_cons_self .., hv⟩
            · rcases hrest w hwr with ⟨hlo, hhi⟩ | ⟨v', hv', he⟩
              · exact Or.inl ⟨by omega, hhi⟩
              · exact Or.inr ⟨v', List.mem_cons_of_mem _ hv', he⟩

/-- Allocator freshness through the recursive pipeline: the counter never
decreases, and every output of a non-empty pipeline is a freshly allocated
copy; only the empty step list passes the input through itself. -/
theorem recTransform_interval :
    ∀ (steps : List (String × Transformer)) (ctr : Nat) (o : Obj)
      (l : List Obj) (c : Nat),
    recTransform steps ctr o = (.ok l, c) →
    ctr ≤ c ∧ ∀ w ∈ l,
      (ctr ≤ w.oid ∧ w.oid < c) ∨ (steps = [] ∧ w = o) := by
  intro steps
  induction steps with
  | nil =>
    intro ctr o l c h
    obtain ⟨h1, h2⟩ := Prod.mk.injEq .. ▸ h
    have hl : l = [o] := by simp_all
    have hc : c = ctr := by simp_all
    subst hl hc
    simp
  | cons st rest ih =>
    obtain ⟨name, t⟩ := st
    intro ctr o l c h
    unfold recTransform at h
    cases h1 : transformN t ctr o (t.n_samples.getD 0) with
    | mk r1 c1 =>
      rw [h1] at h
      cases r1 with
      | error e => simp at h
      | ok vs =>
        simp only [] at h
        obtain ⟨hc1, hch⟩ := transformN_ok_char t _ ctr o vs c1 h1
        have hR : ∀ (ctr' : Nat) (v : Obj) (lv : List Obj) (c2 : Nat),
            recTransform rest ctr' v = (.ok lv, c2) →
            ctr' ≤ c2 ∧ ∀ w ∈ lv, (ctr' ≤ w.oid ∧ w.oid < c2) ∨ w = v := by
          intro ctr' v lv c2 h'
          obtain ⟨ha, hb⟩ := ih ctr' v lv c2 h'
          exact ⟨ha, fun w hw => (hb w hw).imp id And.right⟩
        obtain ⟨hcc, hmem⟩ := recSeq_interval (recTransform rest) hR vs c1 l c h
        refine ⟨by omega, ?_⟩
        intro w hw
        rcases hmem w hw with ⟨hlo, hhi⟩ | ⟨v, hv, he⟩
        · exact Or.inl ⟨by omega, hhi⟩
        · rcases hch with ⟨-, hvs⟩ | ⟨J, -, hvs⟩
          · subst hvs; simp at hv
          · subst hvs
            obtain ⟨i, hik, hvi⟩ := copies_mem J ctr _ v hv
            subst he hvi
            exact Or.inl ⟨by simp, by simp; omega⟩

/-- History provenance through the recursive pipeline: every output document
extends its input's history by exactly one record per step, in step order,
each record naming the step's serialized spec. -/
theorem recTransform_hist :
    ∀ (steps : List (String × Transformer)) (ctr : Nat) (o : Obj)
      (l : List Obj) (c : Nat),
    recTransform steps ctr o = (.ok l, c) →
    ∀ w ∈ l, ∃ recs, histOf w = histOf o ++ recs ∧
      recs.map HistRecord.transformer =
        steps.map (fun p => p.2.serialize) := by
  intro steps
  induction steps with
  | nil =>
    intro ctr o l c h w hw
    obtain ⟨h1, h2⟩ := Prod.mk.injEq .. ▸ h
    have hl : l = [o] := by simp_all
    subst hl
    simp only [List.mem_singleton] at hw
    subst hw
    exact ⟨[], by simp⟩
  | cons st rest ih =>
    obtain ⟨name, t⟩ := st
    intro ctr o l c h w hw
    unfold recTransform at h
    cases h1 : transformN t ctr o (t.n_samples.getD 0) with
    | mk r1 c1 =>
      rw [h1] at h
      cases r1 with
      | error e => simp at h
      | ok vs =>
        simp only [] at h
        obtain ⟨v, hv, cv, lv, cv2, hrec, hwlv⟩ :=
          recSeq_mem (recTransform rest) vs c1 l c h w hw
        obtain ⟨-, hch⟩ := transformN_ok_char t _ ctr o vs c1 h1
        rcases hch with ⟨-, hvs⟩ | ⟨J, hJ, hvs⟩
        · subst hvs; simp at hv
        · subst hvs
          obtain ⟨i, hik, hvi⟩ := copies_mem J ctr _ v hv
          obtain ⟨muda, m2, hsm, hJm, hJh⟩ := genJam_ok_hist t o J hJ
          obtain ⟨recs', hw1, hw2⟩ := ih cv v lv cv2 hrec w hwlv
          refine ⟨⟨t.serialize, t.get_state o.jam⟩ :: recs', ?_, ?_⟩
          · rw [hw1]
            have hhv : histOf v = histOf o ++ [⟨t.serialize, t.get_state o.jam⟩] := by
              subst hvi
              simp only [histOf, hJm, hsm, hJh]
            rw [hhv, List.append_assoc]
            rfl
          · simp only [List.map_cons, hw2, List.map_cons]

/-- One shared-state pull behaves, content-wise and stream-state-wise, like
the same pull in isolation: the shared `self._state` and allocator cannot
influence it, because `_transform` rebuilds the state before using it. -/
theorem pullStream_iso (t : Transformer) (s : GenState) (ctr : Nat)
    (st : StreamSt) :
    ((pullStream t s ctr st).1).content = (isoPull t st).1 ∧
    (pullStream t s ctr st).2.2.2 = (isoPull t st).2 := by
  unfold pullStream isoPull
  cases hd : st.dead with
  | true => simp [PullRes.content]
  | false =>
    simp only [Bool.false_eq_true, if_false]
    cases hg : keepGoing t st.i with
    | false => simp [PullRes.content]
    | true =>
      simp only [if_true]
      rw [transform_eq_genJam]
      cases hJ : genJam t st.inp with
      | ok J => simp [PullRes.content]
      | error e => cases e <;> simp [PullRes.content]

/-! ### Aliasing and the discarded copy -/

/-- Mutating through a reference with a different object id leaves an entry
untouched. -/
theorem mutateAt_getElem (k : Nat) (f : Jam → Jam) (l : List Obj) (q : Nat)
    (v : Obj) (hq : l[q]? = some v) (hne : v.oid ≠ k) :
    (mutateAt k f l)[q]? = some v := by
  simp only [mutateAt, List.getElem?_map, hq, Option.map_some]
  simp [hne]

/-- Mutating through any reference other than the head object leaves the
head object untouched. -/
theorem mutateAt_head (k : Nat) (f : Jam → Jam) (o : Obj) (l : List Obj)
    (h : o.oid ≠ k) : (mutateAt k f (o :: l)).head? = some o := by
  simp [mutateAt, h]

/-- Index inversion for sibling copies. -/
theorem copies_getElem_inv (J : Jam) (ctr k p : Nat) (w : Obj)
    (h : (copies J ctr k)[p]? = some w) : p < k ∧ w = ⟨ctr + p, J⟩ := by
  have hp : p < k := by
    by_contra hge
    rw [List.getElem?_eq_none] at h
    · simp at h
    · simp [copies_len]; omega
  rw [copies_getElem J ctr k p hp] at h
  exact ⟨hp, (Option.some.injEq .. ▸ h).symm⟩

/-- A propagated hook failure presupposes that the sidecar was present. -/
theorem genJam_hookError_sandbox (t : Transformer) (o : Obj) (e : String)
    (h : genJam t o = .error (.hookError e)) :
    ∃ muda, o.jam.sandbox_muda = some muda := by
  cases hsm : o.jam.sandbox_muda with
  | none =>
    rw [(genJam_noMuda_iff t o).2 hsm] at h
    simp at h
  | some muda => exact ⟨muda, rfl⟩

/-- The discarded working copy already carries the new history record. -/
theorem preHookObj_hist (t : Transformer) (ctr : Nat) (o : Obj) (muda : Muda)
    (hsm : o.jam.sandbox_muda = some muda) :
    histOf (preHookObj t ctr o) =
      histOf o ++ [⟨t.serialize, t.get_state o.jam⟩] := by
  unfold preHookObj
  rw [hsm]
  simp [histOf, hsm, deepcopy]

/-- The first `m ≥ k` pulls of a freshly created `transform` stream yield
exactly the finite yield sequence, then exhaust. -/
theorem transformPulls_ok (t : Transformer) (k : Nat)
    (hk : t.n_samples = some k) (ctr : Nat) (o : Obj) (l : List Obj) (c : Nat)
    (s : GenState) (m : Nat)
    (h : transformN t ctr o k = (.ok l, c)) (hm : k ≤ m) :
    ∃ sF, transformPulls t s ctr o m =
      (l.map PullRes.item ++ List.replicate (m - k) PullRes.stop, sF, c) := by
  cases m with
  | zero =>
    have hk0 : k = 0 := by omega
    subst hk0
    unfold transformN at h
    obtain ⟨h1, h2⟩ := Prod.mk.injEq .. ▸ h
    have hl : l = [] := by simp_all
    have hc : c = ctr := by simp_all
    subst hl hc
    exact ⟨s, rfl⟩
  | succ m =>
    obtain ⟨sF, hp⟩ :=
      pullsAux_ok t k hk k 0 (by omega) [] ctr o l c (m + 1) hm h
    exact ⟨sF, hp⟩

/-! ### Claim theorems -/

/-- Definitional unfolding of the recursive pipeline at a non-empty step
list. -/
theorem recTransform_cons (name : String) (t : Transformer)
    (rest : List (String × Transformer)) (ctr : Nat) (o : Obj) :
    recTransform ((name, t) :: rest) ctr o =
      match transformN t ctr o (t.n_samples.getD 0) with
      | (.error e, c1) => (.error e, c1)
      | (.ok vs, c1) => recSeq (recTransform rest) vs c1 := rfl

/-- Definitional unfolding of the depth-first expansion at a non-empty fed
list. -/
theorem recSeq_cons (R : Nat → Obj → Except MudaErr (List Obj) × Nat)
    (v : Obj) (vs : List Obj) (ctr : Nat) :
    recSeq R (v :: vs) ctr =
      match R ctr v with
      | (.error e, c1) => (.error e, c1)
      | (.ok ds, c1) =>
        match recSeq R vs c1 with
        | (.error e, c2) => (.error e, c2)
        | (.ok rest, c2) => (.ok (ds ++ rest), c2) := rfl

/-- C1.  A two-stage pipeline whose stages yield `a` and `b` variants per
input yields exactly `a * b` documents, depth-first: the `b` second-stage
outputs of the first first-stage variant form the initial segment of the
output stream, before anything descending from later first-stage variants. -/
theorem claim_C1_cartesian (t1 t2 : Transformer) (n1 n2 : String)
    (a b ctr : Nat) (o : Obj) (l : List Obj) (c : Nat)
    (h1 : t1.n_samples = some a) (h2 : t2.n_samples = some b) (ha : 0 < a)
    (hrun : recTransform [(n1, t1), (n2, t2)] ctr o = (.ok l, c)) :
    l.length = a * b ∧
    ∃ v1 vrest c1, transformN t1 ctr o a = (.ok (v1 :: vrest), c1) ∧
      ∃ l1 c2, recTransform [(n2, t2)] c1 v1 = (.ok l1, c2) ∧ l1.length = b ∧
        l.take b = l1 ∧
        ∃ lrest, recSeq (recTransform [(n2, t2)]) vrest c2 = (.ok lrest, c) ∧
          l = l1 ++ lrest := by
  have hRlen : ∀ (cc : Nat) (v : Obj) (lv : List Obj) (c2 : Nat),
      recTransform [(n2, t2)] cc v = (.ok lv, c2) → lv.length = b := by
    intro cc v lv c2 hv
    rw [recTransform_single, h2, Option.getD_some] at hv
    exact (transformN_len t2 b cc v lv c2 hv).1
  rw [recTransform_cons, h1, Option.getD_some] at hrun
  cases hN : transformN t1 ctr o a with
  | mk r1 c1 =>
    rw [hN] at hrun
    cases r1 with
    | error e => simp at hrun
    | ok vs =>
      simp only [] at hrun
      obtain ⟨hvslen, -⟩ := transformN_len t1 a ctr o vs c1 hN
      cases vs with
      | nil => simp at hvslen; omega
      | cons v1 vrest =>
        rw [recSeq_cons] at hrun
        cases hv1 : recTransform [(n2, t2)] c1 v1 with
        | mk rv cv =>
          rw [hv1] at hrun
          cases rv with
          | error e => simp at hrun
          | ok l1 =>
            simp only [] at hrun
            cases hrest : recSeq (recTransform [(n2, t2)]) vrest cv with
            | mk rr cr =>
              rw [hrest] at hrun
              cases rr with
              | error e => simp at hrun
              | ok lrest =>
                simp only [Prod.mk.injEq, Except.ok.injEq] at hrun
                obtain ⟨hl, hc⟩ := hrun
                subst hc
                have hl1 : l1.length = b := hRlen c1 v1 l1 cv hv1
                have hlr : lrest.length = vrest.length * b :=
                  recSeq_len (recTransform [(n2, t2)]) b hRlen vrest cv
                    lrest _ hrest
                have hvl : vrest.length + 1 = a := by
                  simpa using hvslen
                constructor
                · rw [← hl, List.length_append, hl1, hlr, ← hvl,
                    Nat.succ_mul]
                  omega
                · refine ⟨v1, vrest, c1, rfl, l1, cv, hv1, hl1, ?_,
                    lrest, hrest, hl.symm⟩
                  rw [← hl, List.take_left' hl1]

/-- C2.  A transformer with `n_samples = k` yields exactly `k` documents,
each generated by an independent pass on the original input (never on a
sibling); the yields are pairwise distinct object instances, so a mutation
through one yielded reference cannot reach another; the lazy stream yields
them pull by pull and then exhausts; with `n_samples` unset the loop guard
never terminates the stream. -/
theorem claim_C2_isolation (t : Transformer) (k ctr : Nat) (o : Obj)
    (l : List Obj) (c : Nat) (s : GenState) (m : Nat)
    (hk : t.n_samples = some k)
    (h : transformN t ctr o k = (.ok l, c)) (hm : k ≤ m) :
    l.length = k ∧
    (∀ i, i < k → ∃ w, l[i]? = some w ∧ w.oid = ctr + i ∧
      transformOne t (ctr + i) o = (.ok [w], ctr + i + 1)) ∧
    (∀ (p q : Nat) (wp wq : Obj), l[p]? = some wp → l[q]? = some wq →
      p ≠ q → wp.oid ≠ wq.oid) ∧
    (∀ (p q : Nat) (wp wq : Obj), l[p]? = some wp → l[q]? = some wq →
      p ≠ q → ∀ f, (mutateAt wp.oid f l)[q]? = some wq) ∧
    (∃ sF, transformPulls t s ctr o m =
      (l.map PullRes.item ++ List.replicate (m - k) PullRes.stop, sF, c)) ∧
    (∀ t' : Transformer, t'.n_samples = none → ∀ i, keepGoing t' i = true) := by
  obtain ⟨-, hch⟩ := transformN_ok_char t k ctr o l c h
  have hpull := transformPulls_ok t k hk ctr o l c s m h hm
  have hnone : ∀ t' : Transformer, t'.n_samples = none →
      ∀ i, keepGoing t' i = true := by
    intro t' h' i
    simp [keepGoing, h']
  rcases hch with ⟨hk0, hl⟩ | ⟨J, hJ, hl⟩
  · subst hk0; subst hl
    refine ⟨rfl, fun i hi => absurd hi (by omega), ?_, ?_, hpull, hnone⟩ <;>
      (intro p q wp wq hp; simp at hp)
  · subst hl
    refine ⟨copies_len J ctr k, ?_, ?_, ?_, hpull, hnone⟩
    · intro i hi
      exact ⟨⟨ctr + i, J⟩, copies_getElem J ctr k i hi, rfl,
        (transformOne_ok_iff t (ctr + i) o _ _).2 ⟨J, hJ, rfl, rfl⟩⟩
    · intro p q wp wq hp hq hpq
      obtain ⟨-, hwp⟩ := copies_getElem_inv J ctr k p wp hp
      obtain ⟨-, hwq⟩ := copies_getElem_inv J ctr k q wq hq
      subst hwp hwq
      simp only [ne_eq]
      omega
    · intro p q wp wq hp hq hpq f
      obtain ⟨-, hwp⟩ := copies_getElem_inv J ctr k p wp hp
      obtain ⟨-, hwq⟩ := copies_getElem_inv J ctr k q wq hq
      refine mutateAt_getElem wp.oid f _ q wq hq ?_
      subst hwp hwq
      simp only [ne_eq]
      omega

/-- C3.  Interleaving pulls on two independently created streams sharing one
transformer instance (hence the shared instance attribute `self._state` and
one allocator), under any schedule, gives every stream exactly the pull
outcomes it would produce in isolation: the per-pass generation state, the
recorded history state and the hook parameter choices of one pull are never
corrupted by pulls of the other stream. -/
theorem claim_C3_state_isolation (t : Transformer) :
    ∀ (sched : List Bool) (s : GenState) (ctr : Nat) (a b : StreamSt),
    sideResults true (runSched t s ctr a b sched).1 =
      isoStream t a (countPulls true sched) ∧
    sideResults false (runSched t s ctr a b sched).1 =
      isoStream t b (countPulls false sched) := by
  intro sched
  induction sched with
  | nil =>
    intro s ctr a b
    simp [runSched, sideResults, countPulls, isoStream]
  | cons side sc ih =>
    intro s ctr a b
    cases side with
    | true =>
      obtain ⟨hc, hs⟩ := pullStream_iso t s ctr a
      have hI := ih (pullStream t s ctr a).2.1 (pullStream t s ctr a).2.2.1
        (pullStream t s ctr a).2.2.2 b
      constructor
      · simp only [runSched, if_true, sideResults, if_pos rfl, countPulls,
          isoStream]
        refine congrArg₂ List.cons hc ?_
        rw [← hs]
        exact hI.1
      · simp only [runSched, if_true, sideResults, countPulls]
        exact hI.2
    | false =>
      obtain ⟨hc, hs⟩ := pullStream_iso t s ctr b
      have hI := ih (pullStream t s ctr b).2.1 (pullStream t s ctr b).2.2.1
        a (pullStream t s ctr b).2.2.2
      constructor
      · simp only [runSched, Bool.false_eq_true, if_false, sideResults,
          countPulls]
        exact hI.1
      · simp only [runSched, Bool.false_eq_true, if_false, sideResults,
          if_pos rfl, countPulls, isoStream]
        refine congrArg₂ List.cons hc ?_
        rw [← hs]
        exact hI.2

/-- C4 counterexample: a Pipeline over zero steps cannot be constructed —
`zip(*steps)` unpacking fails with a `ValueError` before any Pipeline
instance exists. -/
theorem claim_C4_counterexample :
    Pipeline.init ([] : List (String × Transformer)) =
      .error .emptyUnpack := rfl

/-- C4 (amended): constructing a Pipeline with zero steps raises a
`ValueError` (so no zero-step Pipeline exists); the recursive transform's
base case, reached with an empty remaining-step list, yields the input
document itself, unchanged, exactly once. -/
theorem claim_C4_empty_base (ctr : Nat) (o : Obj) :
    recTransform [] ctr o = (.ok [o], ctr) := rfl

/-- C5.  On a document lacking the muda sidecar, a generation pass raises
the `MissingStateError`-class failure before any mutation: the instance
state and the allocator are untouched and no copy is created; the failure
surfaces at the first generating pull of `transform`, and a pipeline headed
by a generating stage propagates it with the allocator untouched. -/
theorem claim_C5_missing_state (t : Transformer) (o : Obj)
    (h : o.jam.sandbox_muda = none) :
    (∀ s ctr, _transform t s ctr o = (.error .noMudaState, s, ctr)) ∧
    (∀ s ctr i m, keepGoing t i = true →
      pullsAux t s ctr o i (m + 1) =
        (PullRes.err .noMudaState :: List.replicate m PullRes.stop, s, ctr)) ∧
    (∀ name rest ctr k, t.n_samples = some k → 0 < k →
      recTransform ((name, t) :: rest) ctr o =
        (.error .noMudaState, ctr)) := by
  have htr : ∀ s ctr, _transform t s ctr o = (.error .noMudaState, s, ctr) := by
    intro s ctr
    rw [transform_eq_genJam, (genJam_noMuda_iff t o).2 h]
  refine ⟨htr, ?_, ?_⟩
  · intro s ctr i m hg
    exact pullsAux_err t s ctr o i m _ s ctr hg (htr s ctr)
  · intro name rest ctr k hk hkpos
    rw [recTransform_cons, hk, Option.getD_some,
      transformN_noMuda t k ctr o h hkpos]

/-- C6.  Through a pipeline of `m` steps, every output document's history is
the input document's history (preserved as a prefix) extended by exactly `m`
records, in chain order, record `i` naming step `i`'s serialized spec. -/
theorem claim_C6_history (steps : List (String × Transformer)) (ctr : Nat)
    (o : Obj) (l : List Obj) (c : Nat)
    (h : recTransform steps ctr o = (.ok l, c)) :
    ∀ w ∈ l, ∃ recs, histOf w = histOf o ++ recs ∧
      recs.length = steps.length ∧
      recs.map HistRecord.transformer =
        steps.map (fun p => p.2.serialize) := by
  intro w hw
  obtain ⟨recs, h1, h2⟩ := recTransform_hist steps ctr o l c h w hw
  refine ⟨recs, h1, ?_, h2⟩
  have hlen := congrArg List.length h2
  simpa using hlen

/-- C7.  After a transform call (transformer or non-empty pipeline), every
yielded document is a distinct object from the original input, and mutating
through any yielded reference leaves the original entry untouched: all
mutation targets fresh deep copies. -/
theorem claim_C7_frame (t : Transformer) (steps : List (String × Transformer))
    (o : Obj) (ctr k : Nat) (l l2 : List Obj) (c c2 : Nat)
    (ho : o.oid < ctr)
    (h1 : transformN t ctr o k = (.ok l, c))
    (hne : steps ≠ [])
    (h2 : recTransform steps ctr o = (.ok l2, c2)) :
    (∀ w ∈ l, w.oid ≠ o.oid ∧
      ∀ f, (mutateAt w.oid f (o :: l)).head? = some o) ∧
    (∀ w ∈ l2, w.oid ≠ o.oid ∧
      ∀ f, (mutateAt w.oid f (o :: l2)).head? = some o) := by
  constructor
  · intro w hw
    obtain ⟨-, hch⟩ := transformN_ok_char t k ctr o l c h1
    rcases hch with ⟨-, hl⟩ | ⟨J, -, hl⟩
    · subst hl; simp at hw
    · subst hl
      obtain ⟨i, -, hwi⟩ := copies_mem J ctr k w hw
      subst hwi
      exact ⟨by simp only [ne_eq, Obj.mk.injEq]; omega,
        fun f => mutateAt_head _ f o _ (by simp only [ne_eq]; omega)⟩
  · intro w hw
    obtain ⟨-, hmem⟩ := recTransform_interval steps ctr o l2 c2 h2
    rcases hmem w hw with ⟨hlo, -⟩ | ⟨hemp, -⟩
    · exact ⟨by omega, fun f => mutateAt_head _ f o _ (by omega)⟩
    · exact absurd hemp hne

/-- C8.  An exception raised by a hook propagates to the puller of the
stream at exactly the pull computing that variant; that variant is never
yielded and the generator is closed, while the outcomes of pulls already
taken are a stable prefix unaffected by later pulls; and the discarded
working copy had the history record appended before any hook ran. -/
theorem claim_C8_hook_failure (t : Transformer) (o : Obj) (s s2 : GenState)
    (ctr c2 : Nat) (e : String)
    (h : _transform t s ctr o = (.error (.hookError e), s2, c2)) :
    (∀ i m, keepGoing t i = true →
      pullsAux t s ctr o i (m + 1) =
        (PullRes.err (.hookError e) :: List.replicate m PullRes.stop,
          s2, c2)) ∧
    histOf (preHookObj t ctr o) =
      histOf o ++ [⟨t.serialize, t.get_state o.jam⟩] ∧
    (∀ s0 c0 i0 m0 j, (pullsAux t s0 c0 o i0 m0).1 =
      ((pullsAux t s0 c0 o i0 (m0 + j)).1).take m0) := by
  have hg : genJam t o = .error (.hookError e) := by
    rw [transform_eq_genJam] at h
    cases hJ : genJam t o with
    | error e' =>
      cases e' with
      | noMudaState =>
        rw [hJ] at h
        exact absurd (congrArg Prod.fst h) (by simp)
      | hookError e'' =>
        rw [hJ] at h
        have he : e'' = e := by
          have := congrArg Prod.fst h
          simpa using this
        rw [he]
    | ok J =>
      rw [hJ] at h
      exact absurd (congrArg Prod.fst h) (by simp)
  refine ⟨fun i m hgi => pullsAux_err t s ctr o i m _ s2 c2 hgi h, ?_,
    fun s0 c0 i0 m0 j => pullsAux_take t m0 s0 c0 o i0 j⟩
  obtain ⟨muda, hsm⟩ := genJam_hookError_sandbox t o e hg
  exact preHookObj_hist t ctr o muda hsm

/-- C9.  Constructing a Pipeline from a step list in which two steps share a
name fails with the duplicate-name `ValueError` and constructs no Pipeline
instance. -/
theorem claim_C9_duplicate_names (steps : List (String × Transformer))
    (i j : Nat) (hi : i < steps.length) (hj : j < steps.length) (hne : i ≠ j)
    (hname : (steps.get ⟨i, hi⟩).1 = (steps.get ⟨j, hj⟩).1) :
    Pipeline.init steps = .error .dupNames := by
  have hne' : steps ≠ [] := by
    intro he
    subst he
    simp at hi
  have hnodup : ¬ (steps.map Prod.fst).Nodup := by
    intro hnd
    rw [List.nodup_iff_injective_get] at hnd
    have hgi : (steps.map Prod.fst).get ⟨i, by simpa using hi⟩ =
        (steps.map Prod.fst).get ⟨j, by simpa using hj⟩ := by
      simp only [List.get_map]
      exact hname
    have := hnd hgi
    apply hne
    exact congrArg Fin.val this
  have hlen : (steps.map Prod.fst).dedup.length ≠ steps.length := by
    intro hlen
    apply hnodup
    have hsub := List.dedup_sublist (steps.map Prod.fst)
    have heq : (steps.map Prod.fst).dedup = steps.map Prod.fst :=
      hsub.eq_of_length (by simpa using hlen)
    rw [← heq]
    exact List.nodup_dedup _
  unfold Pipeline.init
  rw [if_neg (by simp [List.isEmpty_iff, hne']), if_pos hlen]

/-- C10.  A pipeline of the single step `(name, t)` yields exactly the same
documents, as the same object instances in the same order and with no extra
allocation, as `t`'s own yield sequence; and the lazy stream pulls match. -/
theorem claim_C10_single_step (name : String) (t : Transformer) (k ctr : Nat)
    (o : Obj) (hk : t.n_samples = some k) :
    recTransform [(name, t)] ctr o = transformN t ctr o k ∧
    (∀ l c s m, transformN t ctr o k = (.ok l, c) → k ≤ m →
      ∃ sF, transformPulls t s ctr o m =
        (l.map PullRes.item ++ List.replicate (m - k) PullRes.stop,
          sF, c)) := by
  constructor
  · rw [recTransform_single, hk, Option.getD_some]
  · intro l c s m h hm
    exact transformPulls_ok t k hk ctr o l c s m h hm

/-! ### Concrete witnesses -/

/-- Witness for C1: the two-by-two pipeline on a concrete document yields
exactly four documents. -/
theorem claim_C1_cartesian_witness :
    twoT.n_samples = some 2 ∧ 0 < 2 ∧
    recTransform [("x", twoT), ("y", twoT)] 1 obj0 = (.ok objsTT, 7) ∧
    objsTT.length = 2 * 2 :=
  ⟨rfl, by decide, by rfl,
    (claim_C1_cartesian twoT twoT "x" "y" 2 2 1 obj0 objsTT 7 rfl rfl
      (by decide) (by rfl)).1⟩

/-- Witness for C2: `twoT` on a concrete document yields its two documents. -/
theorem claim_C2_isolation_witness :
    twoT.n_samples = some 2 ∧ transformN twoT 1 obj0 2 = (.ok objsT1, 3) ∧
    2 ≤ 3 ∧ objsT1.length = 2 :=
  ⟨rfl, by rfl, by decide,
    (claim_C2_isolation twoT 2 1 obj0 objsT1 3 [] 3 rfl (by rfl)
      (by decide)).1⟩

/-- Witness for C5: a concrete document without sidecar makes every pass
fail with the state untouched. -/
theorem claim_C5_missing_state_witness :
    objNoMuda.jam.sandbox_muda = none ∧
    ∀ s ctr, _transform idT s ctr objNoMuda =
      (.error .noMudaState, s, ctr) :=
  ⟨rfl, (claim_C5_missing_state idT objNoMuda rfl).1⟩

/-- Witness for C6: a concrete two-step pipeline appends exactly two history
records to each output. -/
theorem claim_C6_history_witness :
    recTransform [("a", idT), ("b", twoT)] 1 obj0 = (.ok objsIT, 4) ∧
    ∀ w ∈ objsIT, ∃ recs, histOf w = histOf obj0 ++ recs ∧
      recs.length = ([("a", idT), ("b", twoT)] :
        List (String × Transformer)).length ∧
      recs.map HistRecord.transformer =
        ([("a", idT), ("b", twoT)] :
          List (String × Transformer)).map (fun p => p.2.serialize) :=
  ⟨by rfl,
    claim_C6_history [("a", idT), ("b", twoT)] 1 obj0 objsIT 4 (by rfl)⟩

/-- Witness for C7: concrete runs of `twoT` and of the one-step `idT`
pipeline never alias the original document. -/
theorem claim_C7_frame_witness :
    obj0.oid < 1 ∧ transformN twoT 1 obj0 2 = (.ok objsT1, 3) ∧
    recTransform [("a", idT)] 1 obj0 = (.ok objsI1, 2) ∧
    ∀ w ∈ objsT1, w.oid ≠ obj0.oid ∧
      ∀ f, (mutateAt w.oid f (obj0 :: objsT1)).head? = some obj0 :=
  ⟨by decide, by rfl, by rfl,
    (claim_C7_frame twoT [("a", idT)] obj0 1 2 objsT1 objsI1 3 2 (by decide)
      (by rfl) (by simp) (by rfl)).1⟩

/-- Witness for C8: the always-raising hook of `failT` surfaces at the first
pull, and the discarded copy already carries its history record. -/
theorem claim_C8_hook_failure_witness :
    _transform failT [] 0 obj0 = (.error (.hookError "boom"), [], 1) ∧
    histOf (preHookObj failT 0 obj0) =
      histOf obj0 ++ [⟨failT.serialize, failT.get_state obj0.jam⟩] :=
  ⟨by rfl,
    (claim_C8_hook_failure failT obj0 [] [] 0 1 "boom" (by rfl)).2.1⟩

/-- Witness for C9: two steps named alike are rejected. -/
theorem claim_C9_duplicate_names_witness :
    (0 : Nat) ≠ 1 ∧
    Pipeline.init [("a", idT), ("a", twoT)] = .error .dupNames :=
  ⟨by decide,
    claim_C9_duplicate_names [("a", idT), ("a", twoT)] 0 1 (by decide)
      (by decide) (by decide) rfl⟩

/-- Witness for C10: the one-step pipeline over `twoT` equals `twoT`'s own
yield sequence on a concrete document. -/
theorem claim_C10_single_step_witness :
    twoT.n_samples = some 2 ∧
    recTransform [("p", twoT)] 1 obj0 = transformN twoT 1 obj0 2 :=
  ⟨rfl, (claim_C10_single_step "p" twoT 2 1 obj0 rfl).1⟩
